import Mathlib

/-!
Verification development for the spatial-data-analysis repository.

The repository has three Python source files:
  * `moran_auto.py` — the spatial-autocorrelation (Moran's I) library,
  * `process_data.py` — the data ingestion/curation pipeline and the
    price/time-change extractor,
  * `gmm.py` — the per-time-slot mixture evaluator and the orchestrator.

This file gives a shallow embedding of the parts of those files that the
frozen claims refer to.  Python floats are modelled by exact rationals (`ℚ`),
NumPy arrays of length `N` by functions `Fin N → ℚ`, `N × N` matrices by
`Fin N → Fin N → ℚ`, pandas tables by lists of record structures, missing
values (`NaN`) by `Option`, and Python exceptions by `Except String`.
Python's `sorted` (a stable sort) is modelled by `List.mergeSort`, which is
also stable.  `np.linalg.norm` distances are compared only through `≤` inside
a sort, so they are replaced by squared Euclidean distances, which induce the
same order.
-/

namespace SpatialData

/-! ## moran_auto.py — weight-matrix constructions -/

/-- One row of `paystation_info.csv`, restricted to the columns the code keeps:
`ELMNTKEY`, `PAIDAREA`, `SUBAREA`. -/
structure AreaRow where
  elmntkey : ℕ
  paidarea : String
  subarea  : String
deriving DecidableEq, Repr

/-- The `(paid area, sub-area)` pair the code reads for a key that occurs in the
paystation table: `unique().tolist()[0]` over the matching rows, i.e. the values
of the first matching row.  `none` when the key does not occur (the code's
`key in all_keys` test is false). -/
def areaLookup (tbl : List AreaRow) (key : ℕ) : Option (String × String) :=
  (tbl.find? (fun r => r.elmntkey = key)).map (fun r => (r.paidarea, r.subarea))

/-- One iteration's effect on the Python local variable `area` in the
`for key in train_active_index` loop of `get_area_weights`: `area` is assigned
when the key occurs in the table (`if key in all_keys`) and otherwise keeps its
previous value (`else: pass`). -/
def updateArea (tbl : List AreaRow) (k : ℕ) (cur : Option (String × String)) :
    Option (String × String) :=
  match areaLookup tbl k with
  | some a => some a
  | none   => cur

/-- The `for key in train_active_index` loop of `get_area_weights`: after
updating `area` (see `updateArea`) the loop reads it unconditionally
(`area_dict[area].append(count)`), which raises `UnboundLocalError` when no
iteration has assigned it yet.  Returns, per iteration, the value of `area`
read at that iteration (the value appended to `area_dict` and stored in
`key_dict`). -/
def assignAreasGo (tbl : List AreaRow) : List ℕ → Option (String × String) →
    Except String (List (String × String))
  | [], _ => .ok []
  | k :: rest, cur =>
    match updateArea tbl k cur with
    | none => .error "UnboundLocalError: local variable area referenced before assignment"
    | some a =>
      match assignAreasGo tbl rest (some a) with
      | .error e => .error e
      | .ok l => .ok (a :: l)

/-- The loop of `get_area_weights`, started with `area` unbound. -/
def assignAreas (tbl : List AreaRow) (keys : List ℕ) :
    Except String (List (String × String)) :=
  assignAreasGo tbl keys none

/-- `key_dict[key]` after the loop: the `area` value stored at the *last*
iteration whose key equals `key` (later iterations overwrite earlier ones). -/
def keyDictLookup (keys : List ℕ) (assigned : List (String × String)) (key : ℕ) :
    Option (String × String) :=
  (((keys.zip assigned).reverse).find? (fun p => p.1 = key)).map (fun p => p.2)

/-- The weight matrix built at the end of `get_area_weights`:
`weights[i, area_dict[key_dict[train_active_index[i]]]] = 1`, so entry `(i, j)`
is `1` iff the area recorded for position `j` equals `key_dict[keys i]`; the
diagonal is then zeroed (`weights[di] = 0`). -/
def areaWeightsOf (N : ℕ) (keys : List ℕ) (keysF : Fin N → ℕ)
    (assigned : List (String × String)) : Fin N → Fin N → ℚ :=
  fun i j =>
    if i = j then 0
    else if assigned.get? j.1 = keyDictLookup keys assigned (keysF i) then 1 else 0

/-- `get_area_weights(train_active_index, N)` from `moran_auto.py`.
`keysF` is `train_active_index` (length `N`); the paystation table is passed
explicitly instead of being read from disk.  Returns `Except` because the loop
can raise `UnboundLocalError` (see `assignAreasGo`). -/
def get_area_weights (tbl : List AreaRow) (N : ℕ) (keysF : Fin N → ℕ) :
    Except String (Fin N → Fin N → ℚ) :=
  (assignAreas tbl ((List.finRange N).map keysF)).map
    (areaWeightsOf N ((List.finRange N).map keysF) keysF)

/-- Squared Euclidean distance between two coordinate pairs.  The code sorts by
`np.linalg.norm(gps_loc[i] - gps_loc[j])`; sorting by the squared distance
produces the same order since squaring is monotone on nonnegative reals. -/
def sqdist (p q : ℚ × ℚ) : ℚ := (p.1 - q.1) ^ 2 + (p.2 - q.2) ^ 2

/-- The neighbor list of row `i` in `get_neighbor_weights`:
`sorted([(j, dist i j) for j in range(N)], key=dist)[1:k+1]`, keeping the
index component.  `sorted` is stable, as is `List.mergeSort`. -/
def neighborList (N : ℕ) (gps : Fin N → ℚ × ℚ) (k : ℕ) (i : Fin N) :
    List (Fin N) :=
  (((((List.finRange N).map (fun j => (j, sqdist (gps i) (gps j)))).mergeSort
      (fun a b => a.2 ≤ b.2)).drop 1).take k).map (fun p => p.1)

/-- `get_neighbor_weights(gps_loc, N, k)` from `moran_auto.py`: row `i` has a
`1` exactly at the columns in its neighbor list.  NOTE: unlike the other two
constructions, the source never zeroes the diagonal of this matrix. -/
def get_neighbor_weights (N : ℕ) (gps : Fin N → ℚ × ℚ) (k : ℕ) :
    Fin N → Fin N → ℚ :=
  fun i j => if j ∈ neighborList N gps k i then 1 else 0

/-- `get_mixture_weights(train_labels, N)` from `moran_auto.py`: row `i` gets a
`1` at every column whose label matches `train_labels[i]`
(`np.where(train_labels == label)`), and the diagonal is then zeroed. -/
def get_mixture_weights (N : ℕ) (labels : Fin N → ℤ) : Fin N → Fin N → ℚ :=
  fun i j => if i = j then 0 else if labels j = labels i then 1 else 0

/-! ## moran_auto.py — the Moran's I statistics -/

/-- `w.sum()` for an `N × N` matrix. -/
def matSum (N : ℕ) (w : Fin N → Fin N → ℚ) : ℚ := ∑ i, ∑ j, w i j

/-- `z = x - x.mean()` (elementwise). -/
def zOf (N : ℕ) (x : Fin N → ℚ) : Fin N → ℚ :=
  fun i => x i - (∑ j, x j) / (N : ℚ)

/-- `moran_mixture(x, train_labels, N)` from `moran_auto.py`:
builds the mixture weights, then `I = (N/W) * top/bottom` with
`top = Σ_i Σ_j w[i,j]·z[i]·z[j]` and `bottom = np.dot(z, z)`. -/
def moran_mixture (N : ℕ) (x : Fin N → ℚ) (labels : Fin N → ℤ) : ℚ :=
  let weights := get_mixture_weights N labels
  let W := matSum N weights
  let z := zOf N x
  let top := ∑ i, ∑ j, weights i j * z i * z j
  let bottom := ∑ i, z i * z i
  ((N : ℚ) / W) * top / bottom

/-- `moran_area(x, train_active_index, N)` from `moran_auto.py`: same formula
with the area weights; propagates the possible `UnboundLocalError` of
`get_area_weights`. -/
def moran_area (N : ℕ) (x : Fin N → ℚ) (tbl : List AreaRow) (keysF : Fin N → ℕ) :
    Except String ℚ :=
  (get_area_weights tbl N keysF).map (fun weights =>
    let W := matSum N weights
    let z := zOf N x
    let top := ∑ i, ∑ j, weights i j * z i * z j
    let bottom := ∑ i, z i * z i
    ((N : ℚ) / W) * top / bottom)

/-- `moran_neighbor(x, gps_loc, N, k)` from `moran_auto.py`: same formula with
the k-nearest-neighbor weights. -/
def moran_neighbor (N : ℕ) (x : Fin N → ℚ) (gps : Fin N → ℚ × ℚ) (k : ℕ) : ℚ :=
  let weights := get_neighbor_weights N gps k
  let W := matSum N weights
  let z := zOf N x
  let top := ∑ i, ∑ j, weights i j * z i * z j
  let bottom := ∑ i, z i * z i
  ((N : ℚ) / W) * top / bottom

/-- The Moran's I formula exactly as §4.2 of the specification words it:
`I = (N / W) * [ Σ_i Σ_j w[i,j]·z[i]·z[j] ] / (Σ_i z[i]²)`, with the bracketed
sum divided by `Σ z²` and the result scaled by `N / W`. -/
def moranI_spec (N : ℕ) (x : Fin N → ℚ) (w : Fin N → Fin N → ℚ) : ℚ :=
  let W := matSum N w
  let z := zOf N x
  ((N : ℚ) / W) * ((∑ i, ∑ j, w i j * z i * z j) / (∑ i, (z i) ^ 2))

/-- `moran_expectation(N)` from `moran_auto.py`: `-1./(N - 1.)`. -/
def moran_expectation (N : ℕ) : ℚ := -1 / ((N : ℚ) - 1)

/-- `moran_variance(x, w, N)` from `moran_auto.py`, line by line:
`s_1 = .5 * Σ_i Σ_j (w[i,j]+w[j,i])²`,
`s_2 = Σ_i (Σ_j w[i,j] + Σ_j w[j,i])²`,
`s_3 = (N⁻¹·Σz⁴) / (N⁻¹·Σz²)²`,
`s_4 = (N²-3N+3)·s_1 - N·s_2 + 3W²`,
`s_5 = (N²-N)·s_1 - 2N·s_2 + 6W²`,
`var = (N·s_4 - s_3·s_5)/((N-1)(N-2)(N-3)W²) - moran_expectation(N)²`. -/
def moran_variance (N : ℕ) (x : Fin N → ℚ) (w : Fin N → Fin N → ℚ) : ℚ :=
  let W := matSum N w
  let z := zOf N x
  let s1 := (1 / 2 : ℚ) * ∑ i, ∑ j, (w i j + w j i) ^ 2
  let s2 := ∑ i, ((∑ j, w i j) + (∑ j, w j i)) ^ 2
  let s3 := ((N : ℚ)⁻¹ * ∑ i, (z i) ^ 4) / (((N : ℚ)⁻¹ * ∑ i, (z i) ^ 2)) ^ 2
  let s4 := ((N : ℚ) ^ 2 - 3 * (N : ℚ) + 3) * s1 - (N : ℚ) * s2 + 3 * W ^ 2
  let s5 := ((N : ℚ) ^ 2 - (N : ℚ)) * s1 - 2 * (N : ℚ) * s2 + 6 * W ^ 2
  (((N : ℚ) * s4 - s3 * s5) /
      (((N : ℚ) - 1) * ((N : ℚ) - 2) * ((N : ℚ) - 3) * W ^ 2)) -
    (moran_expectation N) ^ 2

/-! ## Shared lemmas about the Moran's I formula -/

/-- Scaling the observations by `c` scales `z` by `c`. -/
lemma zOf_mul (N : ℕ) (c : ℚ) (x : Fin N → ℚ) (i : Fin N) :
    zOf N (fun t => c * x t) i = c * zOf N x i := by
  unfold zOf
  rw [← Finset.mul_sum]
  ring

/-- The core of the scale-invariance argument: both the numerator and the
denominator of the I ratio pick up a factor `c²`, which cancels. -/
lemma moranRaw_scale (N : ℕ) (w : Fin N → Fin N → ℚ) (x : Fin N → ℚ) (c : ℚ)
    (hc : c ≠ 0) :
    ((N : ℚ) / matSum N w) *
        (∑ i, ∑ j, w i j * zOf N (fun t => c * x t) i * zOf N (fun t => c * x t) j) /
        (∑ i, zOf N (fun t => c * x t) i * zOf N (fun t => c * x t) i) =
    ((N : ℚ) / matSum N w) * (∑ i, ∑ j, w i j * zOf N x i * zOf N x j) /
        (∑ i, zOf N x i * zOf N x i) := by
  simp only [zOf_mul]
  have hTop : (∑ i, ∑ j, w i j * (c * zOf N x i) * (c * zOf N x j)) =
      c ^ 2 * ∑ i, ∑ j, w i j * zOf N x i * zOf N x j := by
    rw [Finset.mul_sum]
    refine Finset.sum_congr rfl fun i _ => ?_
    rw [Finset.mul_sum]
    exact Finset.sum_congr rfl fun j _ => by ring
  have hBot : (∑ i, (c * zOf N x i) * (c * zOf N x i)) =
      c ^ 2 * ∑ i, zOf N x i * zOf N x i := by
    rw [Finset.mul_sum]
    exact Finset.sum_congr rfl fun i _ => by ring
  rw [hTop, hBot,
    show ((N : ℚ) / matSum N w) * (c ^ 2 * ∑ i, ∑ j, w i j * zOf N x i * zOf N x j) =
      c ^ 2 * (((N : ℚ) / matSum N w) * ∑ i, ∑ j, w i j * zOf N x i * zOf N x j) from by
        ring,
    mul_div_mul_left _ _ (pow_ne_zero 2 hc)]

/-- The code's grouping `(N/W) * top / bottom` with `bottom = Σ z·z` equals the
specification's grouping `(N/W) * (top / Σ z²)`. -/
lemma moranRaw_eq_spec (N : ℕ) (w : Fin N → Fin N → ℚ) (x : Fin N → ℚ) :
    ((N : ℚ) / matSum N w) * (∑ i, ∑ j, w i j * zOf N x i * zOf N x j) /
        (∑ i, zOf N x i * zOf N x i) = moranI_spec N x w := by
  unfold moranI_spec
  rw [mul_div_assoc]
  congr 1
  congr 1
  exact Finset.sum_congr rfl fun i _ => (sq (zOf N x i)).symm

/-! ## Claim theorems: C2, C3, C8 -/

/-- **C2.** For every observation vector `x` of length `N` with non-constant
entries and every weight matrix produced by the scheme's construction with
nonzero total weight `W`, each of `moran_mixture`, `moran_area`, and
`moran_neighbor` returns `I = (N / W) * (Σ_i Σ_j w[i,j]·z[i]·z[j]) / (Σ_i z[i]²)`
with `z = x` minus its mean; the three functions differ only in which weight
matrix they build. -/
theorem C2_moran_pipeline_shared_formula (N : ℕ) (x : Fin N → ℚ)
    (labels : Fin N → ℤ) (tbl : List AreaRow) (keysF : Fin N → ℕ)
    (gps : Fin N → ℚ × ℚ) (k : ℕ) (w : Fin N → Fin N → ℚ)
    (hx : ∃ i j, x i ≠ x j)
    (hW1 : matSum N (get_mixture_weights N labels) ≠ 0)
    (harea : get_area_weights tbl N keysF = .ok w)
    (hW2 : matSum N w ≠ 0)
    (hW3 : matSum N (get_neighbor_weights N gps k) ≠ 0) :
    moran_mixture N x labels = moranI_spec N x (get_mixture_weights N labels) ∧
    moran_area N x tbl keysF = .ok (moranI_spec N x w) ∧
    moran_neighbor N x gps k = moranI_spec N x (get_neighbor_weights N gps k) := by
  refine ⟨?_, ?_, ?_⟩
  · simp only [moran_mixture]
    exact moranRaw_eq_spec N (get_mixture_weights N labels) x
  · simp only [moran_area, harea, Except.map]
    exact congrArg Except.ok (moranRaw_eq_spec N w x)
  · simp only [moran_neighbor]
    exact moranRaw_eq_spec N (get_neighbor_weights N gps k) x

/-- The variance of Moran's I exactly as §4.2 of the specification words it:
`S1 = ½·Σ_i Σ_j (w[i,j] + w[j,i])²`, `S2 = Σ_i (rowSum_i(w) + colSum_i(w))²`,
`S3 = (N⁻¹·Σz⁴)/(N⁻¹·Σz²)²`, `S4 = (N² − 3N + 3)·S1 − N·S2 + 3W²`,
`S5 = (N² − N)·S1 − 2N·S2 + 6W²`, and
`Var[I] = (N·S4 − S3·S5) / ((N−1)(N−2)(N−3)·W²) − (−1/(N−1))²`. -/
def moran_variance_spec (N : ℕ) (x : Fin N → ℚ) (w : Fin N → Fin N → ℚ) : ℚ :=
  let W := matSum N w
  let z := zOf N x
  let S1 := (1 / 2 : ℚ) * ∑ i, ∑ j, (w i j + w j i) ^ 2
  let S2 := ∑ i, ((∑ j, w i j) + (∑ j, w j i)) ^ 2
  let S3 := ((N : ℚ)⁻¹ * ∑ i, (z i) ^ 4) / (((N : ℚ)⁻¹ * ∑ i, (z i) ^ 2)) ^ 2
  let S4 := ((N : ℚ) ^ 2 - 3 * (N : ℚ) + 3) * S1 - (N : ℚ) * S2 + 3 * W ^ 2
  let S5 := ((N : ℚ) ^ 2 - (N : ℚ)) * S1 - 2 * (N : ℚ) * S2 + 6 * W ^ 2
  ((N : ℚ) * S4 - S3 * S5) /
      (((N : ℚ) - 1) * ((N : ℚ) - 2) * ((N : ℚ) - 3) * W ^ 2) -
    (-1 / ((N : ℚ) - 1)) ^ 2

/-- **C3.** For every `N > 3`, `moran_expectation N = −1/(N−1)`; and for every
observation vector with non-constant entries and every weight matrix with
nonzero total weight, `moran_variance` computes exactly the `S1..S5` variance
formula stated in the specification. -/
theorem C3_expectation_and_variance (N : ℕ) (hN : 3 < N) (x : Fin N → ℚ)
    (w : Fin N → Fin N → ℚ) (hx : ∃ i j, x i ≠ x j) (hW : matSum N w ≠ 0) :
    moran_expectation N = -1 / ((N : ℚ) - 1) ∧
    moran_variance N x w = moran_variance_spec N x w := by
  exact ⟨rfl, rfl⟩

/-- **C8.** Moran's I is invariant under scaling the observations by a nonzero
constant `c`, for each of the three schemes (the weight matrix does not depend
on the observations, and both the numerator and denominator of the I ratio
scale by `c²`). -/
theorem C8_moran_scale_invariance (N : ℕ) (x : Fin N → ℚ) (c : ℚ) (hc : c ≠ 0)
    (hx : ∃ i j, x i ≠ x j) (labels : Fin N → ℤ) (tbl : List AreaRow)
    (keysF : Fin N → ℕ) (gps : Fin N → ℚ × ℚ) (k : ℕ) :
    moran_mixture N (fun i => c * x i) labels = moran_mixture N x labels ∧
    moran_area N (fun i => c * x i) tbl keysF = moran_area N x tbl keysF ∧
    moran_neighbor N (fun i => c * x i) gps k = moran_neighbor N x gps k := by
  refine ⟨?_, ?_, ?_⟩
  · simp only [moran_mixture]
    exact moranRaw_scale N (get_mixture_weights N labels) x c hc
  · cases harea : get_area_weights tbl N keysF with
    | error e => simp only [moran_area, harea, Except.map]
    | ok w =>
      simp only [moran_area, harea, Except.map]
      exact congrArg Except.ok (moranRaw_scale N w x c hc)
  · simp only [moran_neighbor]
    exact moranRaw_scale N (get_neighbor_weights N gps k) x c hc

/-! ## Concrete inputs for the witnesses of C2, C3, C8 -/

/-- A non-constant observation vector on two locations. -/
def xEx : Fin 2 → ℚ := ![0, 1]

/-- Both locations in the same mixture component. -/
def labelsEx : Fin 2 → ℤ := ![0, 0]

/-- Two distinct coordinate midpoints. -/
def gpsEx : Fin 2 → ℚ × ℚ := ![(0, 0), (1, 0)]

/-- A paystation table holding both keys, in the same (paid area, sub-area). -/
def tblEx : List AreaRow := [⟨11, "A", "S"⟩, ⟨12, "A", "S"⟩]

/-- The active block-face keys of the example. -/
def keysEx : Fin 2 → ℕ := ![11, 12]

/-- The weight matrix `get_area_weights` produces on the example. -/
def wEx : Fin 2 → Fin 2 → ℚ := fun i j => if i = j then 0 else 1

/-- On the example table, `get_area_weights` succeeds and returns `wEx`. -/
lemma area_weights_example : get_area_weights tblEx 2 keysEx = .ok wEx := by
  unfold get_area_weights
  rw [show assignAreas tblEx ((List.finRange 2).map keysEx) =
      .ok [("A", "S"), ("A", "S")] from rfl]
  exact congrArg Except.ok (funext fun i => funext fun j => by
    fin_cases i <;> fin_cases j <;> rfl)

/-- Witness for C2 at the concrete example. -/
theorem C2_witness :
    (∃ i j, xEx i ≠ xEx j) ∧
    matSum 2 (get_mixture_weights 2 labelsEx) ≠ 0 ∧
    get_area_weights tblEx 2 keysEx = .ok wEx ∧
    matSum 2 wEx ≠ 0 ∧
    matSum 2 (get_neighbor_weights 2 gpsEx 1) ≠ 0 ∧
    (moran_mixture 2 xEx labelsEx = moranI_spec 2 xEx (get_mixture_weights 2 labelsEx) ∧
      moran_area 2 xEx tblEx keysEx = .ok (moranI_spec 2 xEx wEx) ∧
      moran_neighbor 2 xEx gpsEx 1 = moranI_spec 2 xEx (get_neighbor_weights 2 gpsEx 1)) :=
  ⟨⟨0, 1, by with_unfolding_all decide⟩, by with_unfolding_all decide, area_weights_example, by with_unfolding_all decide, by with_unfolding_all decide,
    C2_moran_pipeline_shared_formula 2 xEx labelsEx tblEx keysEx gpsEx 1 wEx
      ⟨0, 1, by with_unfolding_all decide⟩ (by with_unfolding_all decide) area_weights_example (by with_unfolding_all decide) (by with_unfolding_all decide)⟩

/-- A non-constant observation vector on four locations. -/
def x4Ex : Fin 4 → ℚ := ![1, 2, 3, 4]

/-- A fully connected binary weight matrix with zero diagonal on four
locations. -/
def w4Ex : Fin 4 → Fin 4 → ℚ := fun i j => if i = j then 0 else 1

/-- Witness for C3 at the concrete example (`N = 4`). -/
theorem C3_witness :
    3 < 4 ∧ (∃ i j, x4Ex i ≠ x4Ex j) ∧ matSum 4 w4Ex ≠ 0 ∧
    (moran_expectation 4 = -1 / ((4 : ℚ) - 1) ∧
      moran_variance 4 x4Ex w4Ex = moran_variance_spec 4 x4Ex w4Ex) :=
  ⟨by with_unfolding_all decide, ⟨0, 1, by with_unfolding_all decide⟩, by with_unfolding_all decide,
    C3_expectation_and_variance 4 (by with_unfolding_all decide) x4Ex w4Ex ⟨0, 1, by with_unfolding_all decide⟩ (by with_unfolding_all decide)⟩

/-- Witness for C8 at the concrete example (`c = 3`). -/
theorem C8_witness :
    (3 : ℚ) ≠ 0 ∧ (∃ i j, xEx i ≠ xEx j) ∧
    (moran_mixture 2 (fun i => 3 * xEx i) labelsEx = moran_mixture 2 xEx labelsEx ∧
      moran_area 2 (fun i => 3 * xEx i) tblEx keysEx = moran_area 2 xEx tblEx keysEx ∧
      moran_neighbor 2 (fun i => 3 * xEx i) gpsEx 1 = moran_neighbor 2 xEx gpsEx 1) :=
  ⟨by with_unfolding_all decide, ⟨0, 1, by with_unfolding_all decide⟩,
    C8_moran_scale_invariance 2 xEx 3 (by with_unfolding_all decide) ⟨0, 1, by with_unfolding_all decide⟩ labelsEx tblEx
      keysEx gpsEx 1⟩

/-! ## Lemmas for the weight-matrix invariants (C4) and the area loop (C9) -/

/-- Once `area` is bound, the loop can never raise `UnboundLocalError`. -/
lemma assignAreasGo_some_ok (tbl : List AreaRow) :
    ∀ (keys : List ℕ) (a : String × String),
      ∃ l, assignAreasGo tbl keys (some a) = .ok l := by
  intro keys
  induction keys with
  | nil => exact fun a => ⟨[], rfl⟩
  | cons k rest ih =>
    intro a
    unfold assignAreasGo
    cases hl : updateArea tbl k (some a) with
    | none =>
      exact absurd hl (by unfold updateArea; cases areaLookup tbl k <;> simp)
    | some b =>
      obtain ⟨l, h⟩ := ih b
      refine ⟨b :: l, ?_⟩
      show (match assignAreasGo tbl rest (some b) with
        | Except.error e => Except.error e
        | Except.ok l => Except.ok (b :: l)) = Except.ok (b :: l)
      rw [h]

/-- If the first key of a nonempty key list occurs in the table, the loop
succeeds. -/
lemma assignAreas_ok_of_head_found (tbl : List AreaRow) (k : ℕ) (rest : List ℕ)
    (a : String × String) (hk : areaLookup tbl k = some a) :
    ∃ l, assignAreas tbl (k :: rest) = .ok l := by
  unfold assignAreas assignAreasGo
  rw [show updateArea tbl k none = some a from by unfold updateArea; rw [hk]]
  obtain ⟨l, h⟩ := assignAreasGo_some_ok tbl rest a
  refine ⟨a :: l, ?_⟩
  show (match assignAreasGo tbl rest (some a) with
    | Except.error e => Except.error e
    | Except.ok l => Except.ok (a :: l)) = Except.ok (a :: l)
  rw [h]

/-- If the first key of a nonempty key list does not occur in the table, the
loop raises `UnboundLocalError` at its first iteration. -/
lemma assignAreas_error_of_head_missing (tbl : List AreaRow) (k : ℕ)
    (rest : List ℕ) (hk : areaLookup tbl k = none) :
    assignAreas tbl (k :: rest) =
      .error "UnboundLocalError: local variable area referenced before assignment" := by
  unfold assignAreas assignAreasGo
  rw [show updateArea tbl k none = none from by unfold updateArea; rw [hk]]

/-- A key occurring in the `ELMNTKEY` column has a defined `(paid area,
sub-area)` pair. -/
lemma areaLookup_some_of_mem (tbl : List AreaRow) (key : ℕ)
    (h : key ∈ tbl.map AreaRow.elmntkey) : ∃ a, areaLookup tbl key = some a := by
  obtain ⟨r, hr, hre⟩ := List.mem_map.mp h
  have hs : (tbl.find? (fun r => r.elmntkey = key)).isSome :=
    List.find?_isSome.mpr ⟨r, hr, by simpa using hre⟩
  obtain ⟨r', hr'⟩ := Option.isSome_iff_exists.mp hs
  refine ⟨(r'.paidarea, r'.subarea), ?_⟩
  unfold areaLookup
  rw [hr']
  rfl

/-- With `N > 0`, the key list `get_area_weights` iterates over starts with the
first active key. -/
lemma finRange_map_head (N : ℕ) (hN : 0 < N) (keysF : Fin N → ℕ) :
    ∃ rest, (List.finRange N).map keysF = keysF ⟨0, hN⟩ :: rest := by
  cases N with
  | zero => exact absurd hN (by simp)
  | succ n =>
    refine ⟨((List.finRange n).map Fin.succ).map keysF, ?_⟩
    rw [List.finRange_succ, List.map_cons]
    rfl

/-- A squared Euclidean distance vanishes only between equal points. -/
lemma sqdist_eq_zero_iff (p q : ℚ × ℚ) : sqdist p q = 0 ↔ p = q := by
  unfold sqdist
  constructor
  · intro h
    have h1 : (p.1 - q.1) ^ 2 = 0 ∧ (p.2 - q.2) ^ 2 = 0 := by
      constructor <;> nlinarith [sq_nonneg (p.1 - q.1), sq_nonneg (p.2 - q.2)]
    have e1 : p.1 = q.1 := by
      have := pow_eq_zero_iff (n := 2) (by norm_num) |>.mp h1.1
      linarith
    have e2 : p.2 = q.2 := by
      have := pow_eq_zero_iff (n := 2) (by norm_num) |>.mp h1.2
      linarith
    exact Prod.ext e1 e2
  · intro h
    rw [h]
    ring

/-- A squared Euclidean distance is nonnegative. -/
lemma sqdist_nonneg (p q : ℚ × ℚ) : 0 ≤ sqdist p q :=
  add_nonneg (sq_nonneg _) (sq_nonneg _)

/-- When the coordinate rows are pairwise distinct, a row is never its own
k-nearest neighbor: its (index, distance) pair is the unique pair at distance
`0`, the stable sort puts it first, and the slice `[1:k+1]` drops it. -/
lemma self_not_mem_neighborList (N : ℕ) (gps : Fin N → ℚ × ℚ) (k : ℕ)
    (hgps : ∀ i j : Fin N, i ≠ j → gps i ≠ gps j) (i : Fin N) :
    i ∉ neighborList N gps k i := by
  intro hmem
  unfold neighborList at hmem
  set l := (List.finRange N).map (fun j => (j, sqdist (gps i) (gps j))) with hl
  set s := l.mergeSort (fun a b => a.2 ≤ b.2) with hs
  obtain ⟨p, hp_mem, hp_fst⟩ := List.mem_map.mp hmem
  have hp_drop : p ∈ s.drop 1 := List.mem_of_mem_take hp_mem
  have hs_perm : s.Perm l := List.mergeSort_perm l _
  have hmapfst : l.map Prod.fst = List.finRange N := by
    rw [hl, List.map_map]
    rw [show (Prod.fst ∘ fun j : Fin N => (j, sqdist (gps i) (gps j))) = id from rfl]
    exact List.map_id _
  have hl_mem_snd : ∀ q ∈ l, q.2 = sqdist (gps i) (gps q.1) := by
    intro q hq
    obtain ⟨j, _, hj⟩ := List.mem_map.mp hq
    rw [← hj]
  cases hsc : s with
  | nil =>
    rw [hsc] at hp_drop
    simp at hp_drop
  | cons h t =>
    rw [hsc] at hp_drop
    simp only [List.drop_succ_cons, List.drop_zero] at hp_drop
    have hp_l : p ∈ l := hs_perm.mem_iff.mp (by rw [hsc]; exact List.mem_cons_of_mem _ hp_drop)
    have hp2z : p.2 = 0 := by
      rw [hl_mem_snd p hp_l, hp_fst]
      simp [sqdist]
    have hsorted : List.Pairwise (fun a b : Fin N × ℚ => (a.2 ≤ b.2 : Bool) = true) s :=
      List.sorted_mergeSort
        (fun a b c hab hbc => by
          simp only [decide_eq_true_eq] at hab hbc ⊢
          exact le_trans hab hbc)
        (fun a b => by
          simp only [Bool.or_eq_true, decide_eq_true_eq]
          exact le_total a.2 b.2)
        l
    rw [hsc] at hsorted
    have hhp : h.2 ≤ p.2 := by
      have := (List.pairwise_cons.mp hsorted).1 p hp_drop
      simpa using this
    have hh_l : h ∈ l := hs_perm.mem_iff.mp (by rw [hsc]; exact List.mem_cons_self _ _)
    have hh2 : h.2 = sqdist (gps i) (gps h.1) := hl_mem_snd h hh_l
    have hh2z : h.2 = 0 :=
      le_antisymm (hp2z ▸ hhp) (hh2 ▸ sqdist_nonneg _ _)
    have hh_fst : h.1 = i := by
      by_contra hne
      exact hgps i h.1 (fun e => hne (Eq.symm e))
        ((sqdist_eq_zero_iff _ _).mp (hh2 ▸ hh2z))
    have hnod : (s.map Prod.fst).Nodup :=
      (hs_perm.map Prod.fst).nodup_iff.mpr (hmapfst ▸ List.nodup_finRange N)
    rw [hsc, List.map_cons, List.nodup_cons] at hnod
    exact hnod.1 (hh_fst.symm ▸ hp_fst ▸ List.mem_map_of_mem Prod.fst hp_drop)

/-- **C9.** If the first key of `train_active_index` does not occur in the
`ELMNTKEY` column of the paystation table, `get_area_weights` does not return a
weight matrix but fails with the unbound local variable `area`; if the first
key does occur, that error branch is unreachable and a matrix is returned. -/
theorem C9_area_weights_unbound_local (N : ℕ) (hN : 0 < N) (tbl : List AreaRow)
    (keysF : Fin N → ℕ) :
    (keysF ⟨0, hN⟩ ∉ tbl.map AreaRow.elmntkey →
      get_area_weights tbl N keysF =
        .error "UnboundLocalError: local variable area referenced before assignment") ∧
    (keysF ⟨0, hN⟩ ∈ tbl.map AreaRow.elmntkey →
      ∃ w, get_area_weights tbl N keysF = .ok w) := by
  obtain ⟨rest, hrest⟩ := finRange_map_head N hN keysF
  constructor
  · intro hmiss
    have hnone : areaLookup tbl (keysF ⟨0, hN⟩) = none := by
      unfold areaLookup
      have hfind : tbl.find? (fun r => r.elmntkey = keysF ⟨0, hN⟩) = none := by
        rw [List.find?_eq_none]
        intro r hr
        simp only [decide_eq_true_eq]
        intro e
        exact hmiss (e ▸ List.mem_map_of_mem AreaRow.elmntkey hr)
      rw [hfind]
      rfl
    unfold get_area_weights
    rw [hrest, assignAreas_error_of_head_missing tbl _ rest hnone]
    rfl
  · intro hfound
    obtain ⟨a, ha⟩ := areaLookup_some_of_mem tbl _ hfound
    obtain ⟨l, hok⟩ := assignAreas_ok_of_head_found tbl _ rest a ha
    refine ⟨areaWeightsOf N ((List.finRange N).map keysF) keysF l, ?_⟩
    unfold get_area_weights
    rw [hrest, hok]
    rfl

/-- Witness for C9: on a one-key input absent from an empty table the error is
raised, and with the key present a matrix comes back. -/
theorem C9_witness :
    (0 < 1 ∧
      ((5 : ℕ) ∉ ([] : List AreaRow).map AreaRow.elmntkey →
        get_area_weights [] 1 (fun _ => 5) =
          .error "UnboundLocalError: local variable area referenced before assignment")) ∧
    (0 < 1 ∧
      ((7 : ℕ) ∈ [AreaRow.mk 7 "A" "S"].map AreaRow.elmntkey →
        ∃ w, get_area_weights [AreaRow.mk 7 "A" "S"] 1 (fun _ => 7) = .ok w)) :=
  ⟨⟨Nat.one_pos, (C9_area_weights_unbound_local 1 Nat.one_pos [] (fun _ => 5)).1⟩,
    ⟨Nat.one_pos, (C9_area_weights_unbound_local 1 Nat.one_pos [AreaRow.mk 7 "A" "S"]
      (fun _ => 7)).2⟩⟩

/-- Duplicate coordinate rows: both block-faces share the same midpoint. -/
def gpsDup : Fin 2 → ℚ × ℚ := ![(0, 0), (0, 0)]

/-- **C4, counterexample.** The claim asserts every matrix returned by
`get_neighbor_weights` (for any N-row coordinate matrix and any `0 < k < N`)
has an all-zero diagonal.  With `N = 2`, `k = 1` and duplicate coordinate rows,
the stable sort places row 0's pair before row 1's own pair in row 1's distance
list, so the slice `[1:k+1]` contains row 1 itself and the diagonal entry
`(1, 1)` is `1`: `get_neighbor_weights` never zeroes its diagonal. -/
theorem C4_counterexample_neighbor_diagonal :
    0 < 1 ∧ 1 < 2 ∧ get_neighbor_weights 2 gpsDup 1 1 1 = 1 := by
  with_unfolding_all decide

/-- **C4 (amended).** `get_mixture_weights` (any label vector) and
`get_area_weights` (every key present in the paystation table) return N×N
matrices with all entries 0 or 1 and zero diagonal; `get_neighbor_weights`
(any `0 < k < N`) returns an N×N matrix with all entries 0 or 1, and its
diagonal is all zero *provided the N coordinate rows are pairwise distinct*
(the source never zeroes that diagonal, and with duplicate rows a diagonal
entry can be 1 — see the counterexample). -/
theorem C4_weight_matrices_binary_zero_diagonal (N : ℕ) (labels : Fin N → ℤ)
    (tbl : List AreaRow) (keysF : Fin N → ℕ) (gps : Fin N → ℚ × ℚ) (k : ℕ)
    (hk : 0 < k) (hkN : k < N)
    (hkeys : ∀ i, keysF i ∈ tbl.map AreaRow.elmntkey)
    (hgps : ∀ i j : Fin N, i ≠ j → gps i ≠ gps j) :
    (∀ i j, (get_mixture_weights N labels i j = 0 ∨ get_mixture_weights N labels i j = 1) ∧
      get_mixture_weights N labels i i = 0) ∧
    (∃ w, get_area_weights tbl N keysF = .ok w ∧
      ∀ i j, (w i j = 0 ∨ w i j = 1) ∧ w i i = 0) ∧
    (∀ i j, (get_neighbor_weights N gps k i j = 0 ∨ get_neighbor_weights N gps k i j = 1) ∧
      get_neighbor_weights N gps k i i = 0) := by
  refine ⟨?_, ?_, ?_⟩
  · intro i j
    constructor
    · unfold get_mixture_weights
      split
      · exact Or.inl rfl
      · split
        · exact Or.inr rfl
        · exact Or.inl rfl
    · unfold get_mixture_weights
      exact if_pos rfl
  · have hN : 0 < N := lt_trans hk hkN
    obtain ⟨rest, hrest⟩ := finRange_map_head N hN keysF
    obtain ⟨a, ha⟩ := areaLookup_some_of_mem tbl _ (hkeys ⟨0, hN⟩)
    obtain ⟨l, hok⟩ := assignAreas_ok_of_head_found tbl _ rest a ha
    refine ⟨areaWeightsOf N ((List.finRange N).map keysF) keysF l, ?_, ?_⟩
    · unfold get_area_weights
      rw [hrest, hok]
      rfl
    · intro i j
      constructor
      · unfold areaWeightsOf
        split
        · exact Or.inl rfl
        · split
          · exact Or.inr rfl
          · exact Or.inl rfl
      · unfold areaWeightsOf
        exact if_pos rfl
  · intro i j
    constructor
    · unfold get_neighbor_weights
      split
      · exact Or.inr rfl
      · exact Or.inl rfl
    · unfold get_neighbor_weights
      rw [if_neg (self_not_mem_neighborList N gps k hgps i)]

/-- Witness for C4 (amended) at a concrete input: `N = 2`, `k = 1`, distinct
coordinates, both keys in the example paystation table. -/
theorem C4_witness :
    0 < 1 ∧ 1 < 2 ∧ (∀ i, keysEx i ∈ tblEx.map AreaRow.elmntkey) ∧
    (∀ i j : Fin 2, i ≠ j → gpsEx i ≠ gpsEx j) ∧
    ((∀ i j, (get_mixture_weights 2 labelsEx i j = 0 ∨ get_mixture_weights 2 labelsEx i j = 1) ∧
        get_mixture_weights 2 labelsEx i i = 0) ∧
      (∃ w, get_area_weights tblEx 2 keysEx = .ok w ∧
        ∀ i j, (w i j = 0 ∨ w i j = 1) ∧ w i i = 0) ∧
      (∀ i j, (get_neighbor_weights 2 gpsEx 1 i j = 0 ∨ get_neighbor_weights 2 gpsEx 1 i j = 1) ∧
        get_neighbor_weights 2 gpsEx 1 i i = 0)) :=
  ⟨Nat.one_pos, Nat.one_lt_two, by with_unfolding_all decide, by with_unfolding_all decide,
    C4_weight_matrices_binary_zero_diagonal 2 labelsEx tblEx keysEx gpsEx 1
      Nat.one_pos Nat.one_lt_two (by with_unfolding_all decide) (by with_unfolding_all decide)⟩

/-! ## process_data.py — `load_data`, per-block curation pipeline

One block's rows are modelled after the column-derivation step (lines 93–97):
each row carries `Datetime`, `Date`, `Day`, `Hour`, `Minute`, `Load`.  The
calendar derivations themselves (`dt.date`, `dt.weekday`, …) are library calls
outside the specification's scope, so the derived fields are carried as data.
Timestamps are seconds encoded as `ℤ` with `datetime = date·86400 + seconds`;
`datetime.combine(date, t)` is `combineDT date t` and the `EffectiveEndDate +
23:59:59` adjustment is `combineDT d 86399`.  `NaN` loads are `none`.
The whole-block skip checks (zero rows, all-zero occupancy, missing
coordinates, not exactly 72 cells) only drop a block from the outputs; every
row of the curated table for a retained block is a row produced by this
per-block pipeline. -/

/-- One row of a per-block time series with its derived columns. -/
structure BlockRow where
  datetime : ℤ
  date     : ℤ
  day      : ℕ
  hour     : ℕ
  minute   : ℕ
  load     : Option ℚ
deriving DecidableEq, Repr

/-- `datetime.combine(date, time-of-day)` on the second-resolution encoding. -/
def combineDT (d t : ℤ) : ℤ := d * 86400 + t

/-- One row of `block_info.csv`, restricted to the columns `load_data` keeps:
up to three peak-hour (start, end) time-of-day windows (a window is modelled
as present only when its start is; the code checks only `PeakHourStartK` for
null), and the effective date range. -/
structure InfoRow where
  elementKey : ℕ
  peak1      : Option (ℤ × ℤ)
  peak2      : Option (ℤ × ℤ)
  peak3      : Option (ℤ × ℤ)
  effStart   : ℤ
  effEnd     : Option ℤ
deriving DecidableEq, Repr

/-- The mask of one peak-hour window of one metadata row (lines 152–209 of
`process_data.py`): the row's effective-start timestamp is at or before the
observation, the observation is inside `[combine(Date, PeakHourStartK),
combine(Date, PeakHourEndK))`, the weekday is not Saturday (5), and — when
`EffectiveEndDate` is present — the observation is at or before that date
extended by 23:59:59. -/
def peakMask (ir : InfoRow) (pk : Option (ℤ × ℤ)) (r : BlockRow) : Bool :=
  match pk with
  | none => false
  | some (s, e) =>
    match ir.effEnd with
    | none =>
      decide (combineDT ir.effStart 0 ≤ r.datetime) &&
      decide (combineDT r.date s ≤ r.datetime) &&
      decide (r.datetime < combineDT r.date e) &&
      !(r.day == 5)
    | some d =>
      decide (combineDT ir.effStart 0 ≤ r.datetime) &&
      decide (r.datetime ≤ combineDT d 86399) &&
      decide (combineDT r.date s ≤ r.datetime) &&
      decide (r.datetime < combineDT r.date e) &&
      !(r.day == 5)

/-- One iteration of the `for index, row in curr_block_info.iterrows()` loop:
if all three peak-hour starts are present the row is skipped (`continue`);
otherwise every observation matching one of the (present) peak windows has its
load blanked to `NaN`. -/
def applyInfoRow (ir : InfoRow) (rows : List BlockRow) : List BlockRow :=
  if ir.peak1.isSome && ir.peak2.isSome && ir.peak3.isSome then rows
  else rows.map (fun r =>
    if peakMask ir ir.peak1 r || peakMask ir ir.peak2 r || peakMask ir ir.peak3 r then
      { r with load := none }
    else r)

/-- Lines 88–107 of `process_data.py` for one block: sort by `Datetime`, drop
rows with missing values, keep the rows in `[date_start, date_end]`, drop
Sundays (`Day != 6`), drop federal-holiday dates. -/
def curateFilters (holidays : List ℤ) (dateStart dateEnd : ℤ)
    (rows : List BlockRow) : List BlockRow :=
  ((((rows.mergeSort (fun a b => a.datetime ≤ b.datetime)).filter
      (fun r => r.load.isSome)).filter
      (fun r => decide (dateStart ≤ r.date) && decide (r.date ≤ dateEnd))).filter
      (fun r => !(r.day == 6))).filter
      (fun r => !(holidays.contains r.date))

/-- Line 110: `block_data['Load'] = block_data['Load'].clip_upper(1.5)`. -/
def clipLoads (rows : List BlockRow) : List BlockRow :=
  rows.map (fun r => { r with load := r.load.map (fun v => min v 1.5) })

/-- The per-block pipeline of `load_data` that produces the block's rows of the
curated table (`park_data[key]`): filters, clipping, then the operating-hour
blanking loop over the block's metadata rows
(`block_info.loc[block_info['ElementKey'] == key]`). -/
def load_data_block (holidays : List ℤ) (dateStart dateEnd : ℤ)
    (infoRows : List InfoRow) (key : ℕ) (rows : List BlockRow) : List BlockRow :=
  (infoRows.filter (fun ir => ir.elementKey == key)).foldl
    (fun acc ir => applyInfoRow ir acc)
    (clipLoads (curateFilters holidays dateStart dateEnd rows))

/-- Blanking either keeps a row or blanks its load; no other field changes. -/
lemma mem_applyInfoRow (ir : InfoRow) (rows : List BlockRow) (r : BlockRow)
    (h : r ∈ applyInfoRow ir rows) :
    ∃ r₀ ∈ rows, r = r₀ ∨ r = { r₀ with load := none } := by
  unfold applyInfoRow at h
  split at h
  · exact ⟨r, h, Or.inl rfl⟩
  · obtain ⟨r₀, hr₀, he⟩ := List.mem_map.mp h
    refine ⟨r₀, hr₀, ?_⟩
    split at he
    · exact Or.inr he.symm
    · exact Or.inl he.symm

/-- The whole blanking loop either keeps a row or blanks its load. -/
lemma mem_foldl_applyInfoRow :
    ∀ (irs : List InfoRow) (rows : List BlockRow) (r : BlockRow),
      r ∈ irs.foldl (fun acc ir => applyInfoRow ir acc) rows →
        ∃ r₀ ∈ rows, r = r₀ ∨ r = { r₀ with load := none } := by
  intro irs
  induction irs with
  | nil => exact fun rows r h => ⟨r, h, Or.inl rfl⟩
  | cons ir irs ih =>
    intro rows r h
    obtain ⟨r₀, hr₀, hc⟩ := ih (applyInfoRow ir rows) r h
    obtain ⟨r₁, hr₁, hc'⟩ := mem_applyInfoRow ir rows r₀ hr₀
    refine ⟨r₁, hr₁, ?_⟩
    rcases hc with hc | hc <;> rcases hc' with hc' | hc' <;>
      simp [hc, hc']

/-- A row of the filtered table comes from the input and satisfies all three
filters. -/
lemma mem_curateFilters (holidays : List ℤ) (dateStart dateEnd : ℤ)
    (rows : List BlockRow) (r : BlockRow)
    (h : r ∈ curateFilters holidays dateStart dateEnd rows) :
    r ∈ rows ∧ r.load.isSome ∧ dateStart ≤ r.date ∧ r.date ≤ dateEnd ∧
      r.day ≠ 6 ∧ r.date ∉ holidays := by
  unfold curateFilters at h
  have h1 := List.mem_filter.mp h
  have h2 := List.mem_filter.mp h1.1
  have h3 := List.mem_filter.mp h2.1
  have h4 := List.mem_filter.mp h3.1
  have hmem : r ∈ rows :=
    (List.mergeSort_perm rows (fun a b => a.datetime ≤ b.datetime)).mem_iff.mp h4.1
  refine ⟨hmem, h4.2, ?_, ?_, ?_, ?_⟩
  · exact of_decide_eq_true (Bool.and_elim_left h3.2)
  · exact of_decide_eq_true (Bool.and_elim_right h3.2)
  · simpa using h2.2
  · simpa using h1.2

/-- **C5.** Every row of the curated occupancy table has weekday ≠ 6 (Sunday),
a date that is not on the holiday calendar, and a date inside the inclusive
caller-specified range `[dateStart, dateEnd]`. -/
theorem C5_curated_rows_filtered (holidays : List ℤ) (dateStart dateEnd : ℤ)
    (infoRows : List InfoRow) (key : ℕ) (rows : List BlockRow) (r : BlockRow)
    (hr : r ∈ load_data_block holidays dateStart dateEnd infoRows key rows) :
    r.day ≠ 6 ∧ r.date ∉ holidays ∧ dateStart ≤ r.date ∧ r.date ≤ dateEnd := by
  unfold load_data_block at hr
  obtain ⟨rc, hrc, hcase⟩ := mem_foldl_applyInfoRow _ _ _ hr
  obtain ⟨r₁, hr₁, he⟩ := List.mem_map.mp hrc
  obtain ⟨-, -, hd1, hd2, hday, hhol⟩ :=
    mem_curateFilters holidays dateStart dateEnd rows r₁ hr₁
  have hfields : r.day = r₁.day ∧ r.date = r₁.date := by
    rcases hcase with hc | hc <;> rw [hc, ← he] <;> exact ⟨rfl, rfl⟩
  rw [hfields.1, hfields.2]
  exact ⟨hday, hhol, hd1, hd2⟩

/-- **C6.** Every curated row that was not blanked by an operating-hour,
holiday, or Sunday rule carries the load `min(v, 1.5)` where `v` is the
corresponding input observation's occupancy value. -/
theorem C6_curated_load_clipped (holidays : List ℤ) (dateStart dateEnd : ℤ)
    (infoRows : List InfoRow) (key : ℕ) (rows : List BlockRow) (r : BlockRow)
    (hr : r ∈ load_data_block holidays dateStart dateEnd infoRows key rows) :
    r.load = none ∨
      ∃ r₀ ∈ rows, ∃ v, r₀.load = some v ∧ r.load = some (min v 1.5) ∧
        r.datetime = r₀.datetime ∧ r.date = r₀.date ∧ r.day = r₀.day := by
  unfold load_data_block at hr
  obtain ⟨rc, hrc, hcase⟩ := mem_foldl_applyInfoRow _ _ _ hr
  rcases hcase with hc | hc
  · obtain ⟨r₁, hr₁, he⟩ := List.mem_map.mp hrc
    obtain ⟨hmem, hsome, -, -, -, -⟩ :=
      mem_curateFilters holidays dateStart dateEnd rows r₁ hr₁
    obtain ⟨v, hv⟩ := Option.isSome_iff_exists.mp hsome
    refine Or.inr ⟨r₁, hmem, v, hv, ?_, ?_, ?_, ?_⟩
    · rw [hc, ← he]
      show r₁.load.map (fun v => min v 1.5) = some (min v 1.5)
      rw [hv]
      rfl
    · rw [hc, ← he]
    · rw [hc, ← he]
    · rw [hc, ← he]
  · exact Or.inl (by rw [hc])

/-- Concrete inputs for the C5/C6 witnesses: one observation on a Wednesday
(day 2), date 5, load 2 (so the clip to 1.5 is visible), no metadata rows.
Timestamps are kept small; only their relative order matters. -/
def rowEx : BlockRow := ⟨12, 5, 2, 10, 0, some 2⟩

/-- The curated row the pipeline produces for `rowEx`. -/
def rowExOut : BlockRow := ⟨12, 5, 2, 10, 0, some (3 / 2)⟩

set_option maxRecDepth 4000 in
/-- The example pipeline retains exactly the clipped row. -/
lemma load_data_block_example :
    load_data_block [7] 0 10 [] 1 [rowEx] = [rowExOut] := by
  with_unfolding_all decide

/-- Witness for C5 at the concrete example. -/
theorem C5_witness :
    rowExOut ∈ load_data_block [7] 0 10 [] 1 [rowEx] ∧
    (rowExOut.day ≠ 6 ∧ rowExOut.date ∉ [(7 : ℤ)] ∧
      (0 : ℤ) ≤ rowExOut.date ∧ rowExOut.date ≤ 10) :=
  ⟨by rw [load_data_block_example]; exact List.mem_singleton.mpr rfl,
    C5_curated_rows_filtered [7] 0 10 [] 1 [rowEx] rowExOut
      (by rw [load_data_block_example]; exact List.mem_singleton.mpr rfl)⟩

/-- Witness for C6 at the concrete example. -/
theorem C6_witness :
    rowExOut ∈ load_data_block [7] 0 10 [] 1 [rowEx] ∧
    (rowExOut.load = none ∨
      ∃ r₀ ∈ [rowEx], ∃ v, r₀.load = some v ∧ rowExOut.load = some (min v 1.5) ∧
        rowExOut.datetime = r₀.datetime ∧ rowExOut.date = r₀.date ∧
        rowExOut.day = r₀.day) :=
  ⟨by rw [load_data_block_example]; exact List.mem_singleton.mpr rfl,
    C6_curated_load_clipped [7] 0 10 [] 1 [rowEx] rowExOut
      (by rw [load_data_block_example]; exact List.mem_singleton.mpr rfl)⟩

/-! ## process_data.py — `get_price_changes` -/

/-- One row of `block_info.csv`, restricted to the columns `get_price_changes`
reads: the block key, the paid-parking area, the six rate tiers
(`WeekdayRate1..3`, `SaturdayRate1..3`, `NaN` as `none`), the four operating
time-of-day strings, and the effective date range. -/
structure PriceRow where
  elementKey        : ℕ
  paidParkingArea   : String
  wr1               : Option ℚ
  wr2               : Option ℚ
  wr3               : Option ℚ
  sr1               : Option ℚ
  sr2               : Option ℚ
  sr3               : Option ℚ
  startTimeWeekday  : Option String
  endTimeWeekday    : Option String
  startTimeSaturday : Option String
  endTimeSaturday   : Option String
  effStart          : ℤ
  effEnd            : Option ℤ
deriving DecidableEq, Repr

/-- The row's rate-tier vector (`prices[i]` in the source). -/
def pricesOf (r : PriceRow) : List (Option ℚ) :=
  [r.wr1, r.wr2, r.wr3, r.sr1, r.sr2, r.sr3]

/-- The row's operating-time vector (`times[i]` in the source). -/
def timesOf (r : PriceRow) : List (Option String) :=
  [r.startTimeWeekday, r.endTimeWeekday, r.startTimeSaturday, r.endTimeSaturday]

/-- NumPy elementwise equality of possibly-missing values: `NaN` compares
unequal to everything, including another `NaN`. -/
def optValEq {α : Type} [DecidableEq α] (a b : Option α) : Bool :=
  match a, b with
  | some x, some y => x = y
  | _, _ => false

/-- `np.array_equal` on two vectors of possibly-missing values. -/
def arrEq {α : Type} [DecidableEq α] (p q : List (Option α)) : Bool :=
  p.length == q.length && (p.zip q).all (fun ab => optValEq ab.1 ab.2)

/-- NumPy elementwise subtraction: any operand `NaN` gives `NaN`. -/
def arrSub (p q : List (Option ℚ)) : List (Option ℚ) :=
  (p.zip q).map (fun ab =>
    match ab.1, ab.2 with
    | some a, some b => some (a - b)
    | _, _ => none)

/-- `defaultdict(list)` as an association list: `d[k].append(v)` appends to the
existing entry or creates one holding `[v]`. -/
def dictAppend {κ ν : Type} [DecidableEq κ] (d : List (κ × List ν)) (k : κ)
    (v : ν) : List (κ × List ν) :=
  if (d.find? (fun p => p.1 = k)).isSome then
    d.map (fun p => if p.1 = k then (p.1, p.2 ++ [v]) else p)
  else d ++ [(k, [v])]

/-- `pandas.Series.unique()`: the distinct values in first-occurrence order. -/
def uniqueKeys : List ℕ → List ℕ
  | [] => []
  | k :: rest => k :: uniqueKeys (rest.filter (fun x => !(x == k)))
termination_by l => l.length
decreasing_by
  simp only [List.length_cons]
  exact Nat.lt_succ_of_le (List.length_filter_le _ _)

/-- The price-change dictionary: key (new effective-start date, old
effective-start date), value a list of (block key, rate-delta vector). -/
abbrev PCDict := List ((ℤ × ℤ) × List (ℕ × List (Option ℚ)))

/-- The time-change dictionary: key as above, value a list of (block key, old
times, new times). -/
abbrev TCDict :=
  List ((ℤ × ℤ) × List (ℕ × List (Option String) × List (Option String)))

/-- The inner `for i in xrange(len(block)-1)` loop of `get_price_changes` for
one block key: compare each row of the sorted block with its successor; on
differing rate vectors append a price-change entry keyed by
`(dates[i+1], dates[i])` with value `(key, prices[i] - prices[i+1])`; on
differing time vectors append a time-change entry with value
`(key, times[i], times[i+1])`. -/
def blockChanges (key : ℕ) (rows : List PriceRow) (acc : PCDict × TCDict) :
    PCDict × TCDict :=
  (rows.zip rows.tail).foldl (fun acc pr =>
    let acc1 := if arrEq (pricesOf pr.1) (pricesOf pr.2) then acc.1
      else dictAppend acc.1 (pr.2.effStart, pr.1.effStart)
        (key, arrSub (pricesOf pr.1) (pricesOf pr.2))
    let acc2 := if arrEq (timesOf pr.1) (timesOf pr.2) then acc.2
      else dictAppend acc.2 (pr.2.effStart, pr.1.effStart)
        (key, timesOf pr.1, timesOf pr.2)
    (acc1, acc2)) acc

/-- `get_price_changes(area, data_path)` from `process_data.py`: restrict the
metadata table to the requested paid-parking area; for each distinct block key
drop the rows lacking `WeekdayRate1`, sort by `EffectiveStartDate`, and run the
successor-comparison loop, accumulating into the two dictionaries. -/
def get_price_changes (areaName : String) (tbl : List PriceRow) :
    PCDict × TCDict :=
  let area := tbl.filter (fun r => r.paidParkingArea == areaName)
  (uniqueKeys (area.map (fun r => r.elementKey))).foldl (fun acc key =>
    let block := area.filter (fun r => r.elementKey == key)
    let blockRated := block.filter (fun r => r.wr1.isSome)
    let blockSorted := blockRated.mergeSort (fun a b => a.effStart ≤ b.effStart)
    blockChanges key blockSorted acc) ([], [])

/-- **C7.** For a metadata table whose area filter yields exactly two rows of
one block key, both with a first weekday rate, in effective-start order, with
differing rate vectors, `get_price_changes` returns exactly one price-change
entry, keyed by (second row's start date, first row's start date), whose value
is the block key with the elementwise difference (first row's rates minus
second row's rates). -/
theorem C7_price_change_two_rows (areaName : String) (tbl : List PriceRow)
    (r1 r2 : PriceRow) (key : ℕ)
    (harea : tbl.filter (fun r => r.paidParkingArea == areaName) = [r1, r2])
    (hk1 : r1.elementKey = key) (hk2 : r2.elementKey = key)
    (hw1 : r1.wr1.isSome) (hw2 : r2.wr1.isSome)
    (hord : r1.effStart ≤ r2.effStart)
    (hne : arrEq (pricesOf r1) (pricesOf r2) = false) :
    (get_price_changes areaName tbl).1 =
      [((r2.effStart, r1.effStart), [(key, arrSub (pricesOf r1) (pricesOf r2))])] := by
  have hmapkeys : ([r1, r2].map (fun r => r.elementKey)) = [key, key] := by
    simp [hk1, hk2]
  have huniq : uniqueKeys [key, key] = [key] := by
    unfold uniqueKeys
    simp [uniqueKeys]
  have hblock : ([r1, r2].filter (fun r => r.elementKey == key)) = [r1, r2] := by
    simp [List.filter_cons, hk1, hk2]
  have hrated : ([r1, r2].filter (fun r => r.wr1.isSome)) = [r1, r2] := by
    simp [List.filter_cons, hw1, hw2]
  have hsorted : ([r1, r2].mergeSort (fun a b => a.effStart ≤ b.effStart)) = [r1, r2] := by
    apply List.mergeSort_of_sorted
    refine List.pairwise_cons.mpr ⟨?_, List.pairwise_singleton _ _⟩
    intro b hb
    rw [List.mem_singleton.mp hb]
    simpa using hord
  simp only [get_price_changes, harea, hmapkeys, huniq, List.foldl_cons,
    List.foldl_nil, hblock, hrated, hsorted]
  simp only [blockChanges, List.tail_cons, List.zip_cons_cons, List.zip_nil_right,
    List.foldl_cons, List.foldl_nil, hne, Bool.false_eq_true, if_false]
  rfl

/-- A concrete two-row metadata block in area "Z" for key 3: the first weekday
rate changes from 2 to 1 between the two effective-start dates 10 and 20. -/
def priceRow1 : PriceRow :=
  ⟨3, "Z", some 2, none, none, some 2, none, none,
    some "08", some "18", some "08", some "18", 10, some 19⟩

/-- The successor row of the example block. -/
def priceRow2 : PriceRow :=
  ⟨3, "Z", some 1, none, none, some 2, none, none,
    some "08", some "18", some "08", some "18", 20, none⟩

/-- Witness for C7 at the concrete example. -/
theorem C7_witness :
    ([priceRow1, priceRow2].filter (fun r => r.paidParkingArea == "Z") =
        [priceRow1, priceRow2]) ∧
    priceRow1.elementKey = 3 ∧ priceRow2.elementKey = 3 ∧
    priceRow1.wr1.isSome = true ∧ priceRow2.wr1.isSome = true ∧
    priceRow1.effStart ≤ priceRow2.effStart ∧
    arrEq (pricesOf priceRow1) (pricesOf priceRow2) = false ∧
    (get_price_changes "Z" [priceRow1, priceRow2]).1 =
      [((priceRow2.effStart, priceRow1.effStart),
        [(3, arrSub (pricesOf priceRow1) (pricesOf priceRow2))])] :=
  ⟨by with_unfolding_all decide, rfl, rfl, rfl, rfl, by with_unfolding_all decide,
    by with_unfolding_all decide,
    C7_price_change_two_rows "Z" [priceRow1, priceRow2] priceRow1 priceRow2 3
      (by with_unfolding_all decide) rfl rfl rfl rfl
      (by with_unfolding_all decide) (by with_unfolding_all decide)⟩

/-! ## gmm.py — the per-(train, test) accuracy step (C10) -/

/-- Lines 192–206 of `gmm.py`: the comparison of test labels against the
training labels of the same block keys.  The input is the list of
`(test_labels[i], train_labels[train_to_label_map[test_active_index[i]]])`
pairs — one per row of the test date surviving the dropna and
`isin(train_active_index)` restriction.  `correct` counts matching pairs,
`incorrect` the others, and `accuracy = correct/float(correct + incorrect)`
raises `ZeroDivisionError` when both counts are zero. -/
def pair_accuracy (labelPairs : List (ℤ × ℤ)) : Except String ℚ :=
  let correct := (labelPairs.filter (fun p => p.1 == p.2)).length
  let incorrect := (labelPairs.filter (fun p => !(p.1 == p.2))).length
  if correct + incorrect = 0 then
    .error "ZeroDivisionError: float division by zero"
  else .ok ((correct : ℚ) / ((correct : ℚ) + (incorrect : ℚ)))

/-- Every label pair is counted exactly once, as correct or as incorrect. -/
lemma correct_add_incorrect_length (labelPairs : List (ℤ × ℤ)) :
    (labelPairs.filter (fun p => p.1 == p.2)).length +
      (labelPairs.filter (fun p => !(p.1 == p.2))).length = labelPairs.length := by
  induction labelPairs with
  | nil => rfl
  | cons p rest ih =>
    by_cases hp : (p.1 == p.2) = true
    · simp [List.filter_cons, hp]
      omega
    · simp [List.filter_cons, hp]
      omega

/-- **C10.** When a test date has zero surviving comparable rows, the accuracy
computation divides zero by zero and raises `ZeroDivisionError`; when at least
one comparable row survives, the division is well-defined and an accuracy
value is returned. -/
theorem C10_accuracy_zero_division (labelPairs : List (ℤ × ℤ)) :
    (labelPairs = [] →
      pair_accuracy labelPairs = .error "ZeroDivisionError: float division by zero") ∧
    (labelPairs ≠ [] → ∃ q, pair_accuracy labelPairs = .ok q) := by
  constructor
  · intro h
    rw [h]
    rfl
  · intro h
    have hlen := correct_add_incorrect_length labelPairs
    have hpos : (labelPairs.filter (fun p => p.1 == p.2)).length +
        (labelPairs.filter (fun p => !(p.1 == p.2))).length ≠ 0 := by
      rw [hlen]
      exact fun e => h (List.length_eq_zero.mp e)
    refine ⟨(((labelPairs.filter (fun p => p.1 == p.2)).length : ℚ) /
        (((labelPairs.filter (fun p => p.1 == p.2)).length : ℚ) +
          ((labelPairs.filter (fun p => !(p.1 == p.2))).length : ℚ))), ?_⟩
    simp only [pair_accuracy]
    rw [if_neg hpos]

/-- Witness for C10: the empty pairing errors, a one-pair input succeeds. -/
theorem C10_witness :
    (([] : List (ℤ × ℤ)) = [] ∧
      pair_accuracy [] = .error "ZeroDivisionError: float division by zero") ∧
    ([((0 : ℤ), (0 : ℤ))] ≠ ([] : List (ℤ × ℤ)) ∧
      ∃ q, pair_accuracy [((0 : ℤ), (0 : ℤ))] = .ok q) :=
  ⟨⟨rfl, (C10_accuracy_zero_division []).1 rfl⟩,
    ⟨by simp, (C10_accuracy_zero_division [((0 : ℤ), (0 : ℤ))]).2 (by simp)⟩⟩

/-! ## gmm.py — the adjacent-weights Moran step (C1)

The per-training-date Moran block of `GMM` (gmm.py lines 132–160) accesses
attributes of the `moran_auto` module by name.  `moran_auto.py` defines exactly
the ten functions listed below; the third scheme's step accesses
`moran_auto.get_adjacent_weights` and `moran_auto.moran_adjacent`, neither of
which `moran_auto.py` defines (it defines `get_neighbor_weights` and
`moran_neighbor`), so Python raises `AttributeError` there and the adjacent
tuple is never appended. -/

/-- The function names `moran_auto.py` defines at module level. -/
def moran_auto_defs : List String :=
  ["get_area_weights", "moran_area", "get_neighbor_weights", "moran_neighbor",
   "get_mixture_weights", "moran_mixture", "moran_expectation", "moran_variance",
   "z_score", "p_value"]

/-- The `moran_auto.<name>` attribute accesses of the per-training-date Moran
block of `GMM` (gmm.py lines 132–160), in execution order. -/
def gmm_moran_attribute_accesses : List String :=
  ["get_mixture_weights", "moran_mixture", "moran_expectation", "moran_variance",
   "z_score", "p_value", "get_area_weights", "moran_area", "moran_expectation",
   "moran_variance", "z_score", "p_value", "get_adjacent_weights",
   "moran_adjacent", "moran_expectation", "moran_variance", "z_score", "p_value"]

/-- Python attribute resolution against a module's definition list: a defined
name resolves, an undefined one raises `AttributeError`. -/
def resolveAttr (modDefs : List String) (name : String) : Except String String :=
  if name ∈ modDefs then .ok name else .error ("AttributeError: " ++ name)

/-- **C1.** The adjacent/neighbor-weight step of `GMM` accesses
`moran_auto.get_adjacent_weights` and `moran_auto.moran_adjacent`, but
`moran_auto.py` defines neither (its neighbor-scheme functions are
`get_neighbor_weights` and `moran_neighbor`), so the step raises
`AttributeError` on the first training date instead of appending the third
Moran tuple: `GMM` never returns the three per-scheme tuples the claim
describes. -/
theorem C1_gmm_adjacent_attribute_error :
    "get_adjacent_weights" ∈ gmm_moran_attribute_accesses ∧
    "moran_adjacent" ∈ gmm_moran_attribute_accesses ∧
    resolveAttr moran_auto_defs "get_adjacent_weights" =
      .error ("AttributeError: " ++ "get_adjacent_weights") ∧
    resolveAttr moran_auto_defs "moran_adjacent" =
      .error ("AttributeError: " ++ "moran_adjacent") := by
  refine ⟨by decide, by decide, ?_, ?_⟩
  · unfold resolveAttr
    rw [if_neg (by decide)]
  · unfold resolveAttr
    rw [if_neg (by decide)]

end SpatialData
